import Mathlib

/-!
Verification of the symbolic string-interning library (names.hpp / names.cpp).

Shallow embedding conventions:
* Strings are lists of byte values (List Nat, each element a byte 0..255).
  The source uses signed char, so bytes at and above 0x80 read as negative
  characters; the ASCII test and the hash model this explicitly.
* Machine integers are Nat with explicit reductions modulo 2 ^ 32 (uint32),
  2 ^ 9 / 2 ^ 16 / 2 ^ 7 (bitfields of NameChunk) and 2 ^ 56 / 2 ^ 8
  (bitfields of Name) wherever the source stores into such a field.
* The arena pool is modelled by the arena counter, the fill cursor of the
  current arena, and the list of chunk records resident in arena memory in
  allocation order (m_pool); each chunk record carries its placement
  (m_arena_id, m_offset), which is what the address arithmetic of
  Name::Name(NameChunk const*) and Name::get_entry computes with.
* The hash index mp_buckets is an association list from bucket number to the
  chunk chain of that bucket in chain (= append) order; a bucket that is
  absent from the list is a null head.  The mp_hash_next links of the source
  are represented by the order of the chain list.
* Fallible operations return Except SymErr; the SYMBL_ASSERT / SYMBL_FAIL
  aborts are mapped to the error taxonomy of the specification (section 7).
* The block source collaborator (alloc::IAllocator::allocate) is modelled by
  a Boolean capability: true means the source supplies a block, false means
  it returns null.
* Code is single-threaded here; the mutation-lock sections of the source are
  embedded as the atomic steps they protect.  The locked insertion path of
  Name::find_or_add (lines 207-226 of names.cpp) is its own definition
  (lockedInsert) so that it can be examined from any starting state, the way
  a concurrent interleaving would reach it.
-/

set_option maxRecDepth 4000

namespace Symbolic

/-! Compile-time constants, from names.hpp. -/

/-- NameChunk::MAX_LENGTH = 512. -/
def MAX_LENGTH : Nat := 512

/-- NameAllocator::MAX_ARENA_SIZE = 2 MiB. -/
def MAX_ARENA_SIZE : Nat := 1024 * 1024 * 2

/-- NameAllocator::MAX_ARENA_COUNT = 32. -/
def MAX_ARENA_COUNT : Nat := 32

/-- NameAllocator::HASH_BUCKETS = 0x10000. -/
def HASH_BUCKETS : Nat := 65536

/-- offsetof(NameChunk, m_data) under pack(1): an 8-byte next pointer,
the 4-byte hash, and 9 + 16 + 7 = 32 bits of bitfields. -/
def META_SIZE : Nat := 16

/-! utils (names.cpp lines 5-39).  A byte b at or above 0x80 is a negative
value of the signed char type, hence fails ch >= 0 in is_ascii, is never an
uppercase letter, and sign-extends when converted to int32. -/

/-- utils::is_ascii. -/
def is_ascii (ch : Nat) : Bool := ch ≤ 127

/-- utils::is_fully_ascii. -/
def is_fully_ascii (s : List Nat) : Bool := s.all is_ascii

/-- utils::is_upper_alpha_ascii. -/
def is_upper_alpha_ascii (ch : Nat) : Bool := 65 ≤ ch && ch ≤ 90

/-- utils::to_lower_ascii ('a' - 'A' = 32). -/
def to_lower_ascii (ch : Nat) : Nat :=
  if is_upper_alpha_ascii ch then ch + 32 else ch

/-- Conversion of a char byte to uint32 through int32, as in the hash loop:
bytes at or above 0x80 are negative chars and sign-extend. -/
def char_as_u32 (ch : Nat) : Nat :=
  if ch ≤ 127 then ch else 2 ^ 32 - 256 + ch

/-- One iteration of the hash loop: hash = ((hash << 5) + hash) ^ ch,
on uint32, with ch the lowercased character. -/
def hash_step (h ch : Nat) : Nat :=
  (h * 33 % 2 ^ 32) ^^^ char_as_u32 (to_lower_ascii ch)

/-- utils::hash_ascii_ci: case-insensitive djb2-xor, seed 5381. -/
def hash_ascii_ci (s : List Nat) : Nat := s.foldl hash_step 5381

/-! Error taxonomy (specification section 7).  The source signals these by
SYMBL_FAIL / SYMBL_LOG followed by abort or a false return. -/

/-- Error outcomes of the interning operations. -/
inductive SymErr where
  | InvalidInput
  | AllocationFailure
  | ArenaExhausted
  | DuplicateName
  | NameNotFound
deriving DecidableEq

/-- detail::NameChunk.  m_hash is the stored uint32 hash; m_length,
m_arena_id, m_flags are the 9-, 16- and 7-bit bitfields; m_data the stored
bytes including the null terminator.  m_offset is the chunk's placement:
its byte offset within its arena (the address arithmetic of the source). -/
structure NameChunk where
  m_hash : Nat
  m_length : Nat
  m_arena_id : Nat
  m_flags : Nat
  m_data : List Nat
  m_offset : Nat
deriving DecidableEq

/-- State of detail::NameAllocator: arena counter, fill cursor of the
current arena, chunk records resident in arena memory in allocation order,
and the hash-bucket chains (association list; missing key = null head). -/
structure SymState where
  m_arena_count : Nat
  m_arena_fill : Nat
  m_pool : List NameChunk
  m_buckets : List (Nat × List NameChunk)
deriving DecidableEq

/-- Read a bucket's chain (mp_buckets[b]; null head = empty chain). -/
def bucketsGet : List (Nat × List NameChunk) → Nat → List NameChunk
  | [], _ => []
  | (k, v) :: rest, b => if k = b then v else bucketsGet rest b

/-- Write a bucket's chain (store into mp_buckets[b] / relink the chain). -/
def bucketsSet : List (Nat × List NameChunk) → Nat → List NameChunk →
    List (Nat × List NameChunk)
  | [], b, l => [(b, l)]
  | (k, v) :: rest, b, l =>
      if k = b then (k, l) :: rest else (k, v) :: bucketsSet rest b l

def SymState.getBucket (st : SymState) (b : Nat) : List NameChunk :=
  bucketsGet st.m_buckets b

def SymState.setBucket (st : SymState) (b : Nat) (l : List NameChunk) :
    SymState :=
  { st with m_buckets := bucketsSet st.m_buckets b l }

/-- symbolic::Name: m_offset is the 56-bit offset bitfield, m_arena_index
the 8-bit arena-index bitfield. -/
structure Name where
  m_offset : Nat
  m_arena_index : Nat
deriving DecidableEq

/-- The single 64-bit word a Name occupies (m_offset in the low 56 bits,
m_arena_index in the high 8, fields reduced to their widths). -/
def Name.encode (n : Name) : Nat :=
  n.m_offset % 2 ^ 56 + n.m_arena_index % 2 ^ 8 * 2 ^ 56

/-- Name::operator==: one 64-bit integer comparison of the raw words. -/
def Name.beq (a b : Name) : Bool := a.encode == b.encode

/-- Name::Name(NameChunk const*): m_arena_index takes the chunk's
m_arena_id (stored into an 8-bit field), m_offset the chunk's byte offset
from its arena base (stored into a 56-bit field). -/
def Name.ofChunk (c : NameChunk) : Name :=
  ⟨c.m_offset % 2 ^ 56, c.m_arena_id % 2 ^ 8⟩

/-- Name::get_entry: read the chunk placed at offset m_offset inside arena
m_arena_index, i.e. the pool record whose placement matches the handle. -/
def SymState.resolve (st : SymState) (n : Name) : Option NameChunk :=
  st.m_pool.find? fun c =>
    c.m_arena_id == n.m_arena_index && c.m_offset == n.m_offset

/-- Name::str(): the view of m_length bytes starting at m_data. -/
def SymState.strOf (st : SymState) (n : Name) : Option (List Nat) :=
  (st.resolve n).map fun c => c.m_data.take c.m_length

/-- Name::data(): the stored bytes (null terminator included). -/
def SymState.dataOf (st : SymState) (n : Name) : Option (List Nat) :=
  (st.resolve n).map fun c => c.m_data

/-- Name::length(). -/
def SymState.lengthOf (st : SymState) (n : Name) : Option Nat :=
  (st.resolve n).map fun c => c.m_length

/-- Name::hash(). -/
def SymState.hashOf (st : SymState) (n : Name) : Option Nat :=
  (st.resolve n).map fun c => c.m_hash

/-- Name::flags(). -/
def SymState.flagsOf (st : SymState) (n : Name) : Option Nat :=
  (st.resolve n).map fun c => c.m_flags

/-- Arena id of the chunk a handle resolves to. -/
def SymState.arenaOf (st : SymState) (n : Name) : Option Nat :=
  (st.resolve n).map fun c => c.m_arena_id

/-- NameAllocator::do_allocate_arena (names.cpp lines 55-74).  Fails when
the arena table is full, or when the block source (alloc_ok) yields no
block; otherwise appends a zeroed arena and resets the fill cursor. -/
def do_allocate_arena (alloc_ok : Bool) (st : SymState) :
    Except SymErr SymState :=
  if st.m_arena_count + 1 > MAX_ARENA_COUNT then .error .ArenaExhausted
  else if alloc_ok = false then .error .AllocationFailure
  else .ok { st with
               m_arena_count := st.m_arena_count + 1
               m_arena_fill := 0 }

/-- Record size: offsetof(NameChunk, m_data) + str.size() + 1 (terminator),
as computed at the top of NameAllocator::add_name. -/
def entry_size (s : List Nat) : Nat := META_SIZE + (s.length + 1)

/-- NameAllocator::add_name (names.cpp lines 83-113).  Opens a new arena
when m_arena_fill + entry_size >= MAX_ARENA_SIZE, then writes the chunk
record at the current fill offset of the current arena and advances the
fill cursor.  Field writes reduce into the bitfield widths. -/
def add_name (alloc_ok : Bool) (s : List Nat) (hash : Nat) (st : SymState) :
    Except SymErr (NameChunk × SymState) :=
  match (if st.m_arena_fill + entry_size s ≥ MAX_ARENA_SIZE
         then do_allocate_arena alloc_ok st
         else .ok st) with
  | .error e => .error e
  | .ok st1 =>
      let c : NameChunk :=
        { m_hash := hash % 2 ^ 32
          m_length := s.length % 2 ^ 9
          m_arena_id := (st1.m_arena_count - 1) % 2 ^ 16
          m_flags := 0
          m_data := s ++ [0]
          m_offset := st1.m_arena_fill }
      .ok (c, { st1 with
                  m_arena_fill := st1.m_arena_fill + entry_size s
                  m_pool := st1.m_pool ++ [c] })

/-- Name::add (names.cpp lines 133-164).  Validates the input, then under
the mutation lock: an empty bucket gets the new chunk as head; otherwise
the chain is walked with the loop guard mp_hash_next != nullptr, comparing
hashes of every node except the last one, and the new chunk is linked after
the tail.  (The tail's hash is never compared: the loop exits on it.) -/
def Name.add (alloc_ok : Bool) (s : List Nat) (st : SymState) :
    Except SymErr (Name × SymState) :=
  if is_fully_ascii s = false then .error .InvalidInput
  else if MAX_LENGTH ≤ s.length then .error .InvalidInput
  else
    match st.getBucket (hash_ascii_ci s % HASH_BUCKETS) with
    | [] =>
        match add_name alloc_ok s (hash_ascii_ci s) st with
        | .error e => .error e
        | .ok (c, st1) =>
            .ok (Name.ofChunk c,
                 st1.setBucket (hash_ascii_ci s % HASH_BUCKETS) [c])
    | c0 :: rest =>
        if ((c0 :: rest).dropLast).any (fun c => c.m_hash == hash_ascii_ci s)
        then .error .DuplicateName
        else
          match add_name alloc_ok s (hash_ascii_ci s) st with
          | .error e => .error e
          | .ok (c, st1) =>
              .ok (Name.ofChunk c,
                   st1.setBucket (hash_ascii_ci s % HASH_BUCKETS)
                     ((c0 :: rest) ++ [c]))

/-- Name::find (names.cpp lines 166-183).  Validates the input, walks the
bucket chain without a lock comparing stored hashes only, and returns the
first match; performs no writes at all (hence no state is returned). -/
def Name.find (s : List Nat) (st : SymState) : Except SymErr Name :=
  if is_fully_ascii s = false then .error .InvalidInput
  else if MAX_LENGTH ≤ s.length then .error .InvalidInput
  else
    match (st.getBucket (hash_ascii_ci s % HASH_BUCKETS)).find?
            (fun c => c.m_hash == hash_ascii_ci s) with
    | some c => .ok (Name.ofChunk c)
    | none => .error .NameNotFound

/-- The locked insertion path of Name::find_or_add (names.cpp lines
207-226): re-reads the bucket head under the lock; an empty bucket gets the
new chunk as head; otherwise the chain is walked to its tail with an empty
loop body - no hash is compared - and the new chunk is linked after the
tail. -/
def lockedInsert (alloc_ok : Bool) (s : List Nat) (hash bucket : Nat)
    (st : SymState) : Except SymErr (Name × SymState) :=
  match st.getBucket bucket with
  | [] =>
      match add_name alloc_ok s hash st with
      | .error e => .error e
      | .ok (c, st1) => .ok (Name.ofChunk c, st1.setBucket bucket [c])
  | c0 :: rest =>
      match add_name alloc_ok s hash st with
      | .error e => .error e
      | .ok (c, st1) =>
          .ok (Name.ofChunk c, st1.setBucket bucket ((c0 :: rest) ++ [c]))

/-- Name::find_or_add (names.cpp lines 185-227).  Validates the input,
scans the bucket chain lock-free exactly as find does and returns on a hit;
on a miss every write happens in the locked insertion path. -/
def Name.find_or_add (alloc_ok : Bool) (s : List Nat) (st : SymState) :
    Except SymErr (Name × SymState) :=
  if is_fully_ascii s = false then .error .InvalidInput
  else if MAX_LENGTH ≤ s.length then .error .InvalidInput
  else
    match (st.getBucket (hash_ascii_ci s % HASH_BUCKETS)).find?
            (fun c => c.m_hash == hash_ascii_ci s) with
    | some c => .ok (Name.ofChunk c, st)
    | none =>
        lockedInsert alloc_ok s (hash_ascii_ci s)
          (hash_ascii_ci s % HASH_BUCKETS) st

deriving instance DecidableEq for Except

/-- State right after the NameAllocator constructor: one pre-allocated
arena, fill cursor 0, no chunks, all bucket heads null. -/
def initState : SymState := ⟨1, 0, [], []⟩

/-- End of the byte range a chunk record occupies inside its arena. -/
def chunkEnd (c : NameChunk) : Nat :=
  c.m_offset + META_SIZE + c.m_length + 1

/-- Well-formedness of an allocator state: the constructor has run, the
arena table is within bounds, the fill cursor is inside the current arena,
and every resident chunk lies wholly inside an existing arena, below the
fill cursor when it lives in the current arena. -/
def WF (st : SymState) : Prop :=
  1 ≤ st.m_arena_count ∧ st.m_arena_count ≤ MAX_ARENA_COUNT ∧
  st.m_arena_fill < MAX_ARENA_SIZE ∧
  ∀ c ∈ st.m_pool,
    c.m_arena_id + 1 ≤ st.m_arena_count ∧
    chunkEnd c ≤ MAX_ARENA_SIZE ∧
    (c.m_arena_id = st.m_arena_count - 1 → chunkEnd c ≤ st.m_arena_fill)

instance (st : SymState) : Decidable (WF st) := by
  unfold WF; infer_instance

/-- The chunk record that NameAllocator::add_name writes when it does not
have to open a new arena: placed at the current fill offset of the current
arena (proof-support abbreviation). -/
def freshChunk (s : List Nat) (hash : Nat) (st : SymState) : NameChunk :=
  ⟨hash % 2 ^ 32, s.length % 2 ^ 9, (st.m_arena_count - 1) % 2 ^ 16, 0,
    s ++ [0], st.m_arena_fill⟩

/-- The state after a fresh in-arena insertion: fill cursor advanced, chunk
written to the pool, chunk linked at the tail of its bucket chain
(proof-support abbreviation; both insertion call sites of the source
produce exactly this state when no new arena is needed). -/
def afterInsert (s : List Nat) (hash bucket : Nat) (st : SymState) :
    SymState :=
  { st with
      m_arena_fill := st.m_arena_fill + entry_size s
      m_pool := st.m_pool ++ [freshChunk s hash st]
      m_buckets := bucketsSet st.m_buckets bucket
        (st.getBucket bucket ++ [freshChunk s hash st]) }

/-! Concrete states for the executable counterexamples and witnesses.
The byte 97 is the character a, 98 is b, 65 is A, 200 is a non-ASCII
byte.  The record size of a one-byte string is 16 + 1 + 1 = 18. -/

/-- The chunk written by the first add of the string a. -/
def ch97a : NameChunk := ⟨hash_ascii_ci [97], 1, 0, 0, [97, 0], 0⟩

/-- The pool state after add of the string a from the fresh state. -/
def st97a : SymState :=
  ⟨1, 18, [ch97a], [(hash_ascii_ci [97] % HASH_BUCKETS, [ch97a])]⟩

/-- The second chunk holding the string a, written by the second add. -/
def ch97b : NameChunk := ⟨hash_ascii_ci [97], 1, 0, 0, [97, 0], 18⟩

/-- The pool state after add of the string a was run twice. -/
def st97b : SymState :=
  ⟨1, 36, [ch97a, ch97b],
   [(hash_ascii_ci [97] % HASH_BUCKETS, [ch97a, ch97b])]⟩

/-- The chunk written by add of the string b after st97a. -/
def ch98 : NameChunk := ⟨hash_ascii_ci [98], 1, 0, 0, [98, 0], 18⟩

/-- The pool state after add of a and then add of b. -/
def st98 : SymState :=
  ⟨1, 36, [ch97a, ch98],
   [(hash_ascii_ci [97] % HASH_BUCKETS, [ch97a]),
    (hash_ascii_ci [98] % HASH_BUCKETS, [ch98])]⟩

/-- A state whose current arena has 18 bytes left: exactly the record size
of a one-byte string. -/
def stBoundary : SymState := ⟨1, MAX_ARENA_SIZE - 18, [], []⟩

/-! Supporting lemmas. -/

theorem bucketsGet_bucketsSet_self (L : List (Nat × List NameChunk))
    (b : Nat) (l : List NameChunk) : bucketsGet (bucketsSet L b l) b = l := by
  induction L with
  | nil => simp [bucketsGet, bucketsSet]
  | cons kv rest ih =>
      obtain ⟨k, v⟩ := kv
      by_cases hk : k = b
      · simp [bucketsSet, bucketsGet, hk]
      · simp [bucketsSet, bucketsGet, hk, ih]

theorem to_lower_ascii_le (ch : Nat) (h : ch ≤ 127) :
    to_lower_ascii ch ≤ 127 := by
  unfold to_lower_ascii is_upper_alpha_ascii
  split <;> rename_i hs
  · simp only [Bool.and_eq_true, decide_eq_true_eq] at hs
    omega
  · omega

theorem hash_step_lt (h ch : Nat) (hch : ch ≤ 127) :
    hash_step h ch < 2 ^ 32 := by
  unfold hash_step char_as_u32
  rw [if_pos (to_lower_ascii_le ch hch)]
  exact Nat.xor_lt_two_pow (Nat.mod_lt _ (by norm_num))
    (lt_of_le_of_lt (to_lower_ascii_le ch hch) (by norm_num))

theorem hash_foldl_lt (s : List Nat) :
    ∀ h : Nat, is_fully_ascii s = true → h < 2 ^ 32 →
      s.foldl hash_step h < 2 ^ 32 := by
  induction s with
  | nil =>
      intro h _ hh
      simp only [List.foldl_nil]
      exact hh
  | cons c t ih =>
      intro h hA hh
      simp only [is_fully_ascii, List.all_cons, Bool.and_eq_true] at hA
      have hc : c ≤ 127 := by
        have hca := hA.1
        unfold is_ascii at hca
        simpa using hca
      simp only [List.foldl_cons]
      exact ih _ (by simpa [is_fully_ascii] using hA.2)
        (hash_step_lt h c hc)

theorem hash_lt (s : List Nat) (hA : is_fully_ascii s = true) :
    hash_ascii_ci s < 2 ^ 32 :=
  hash_foldl_lt s 5381 hA (by norm_num)

theorem add_name_fits (b : Bool) (s : List Nat) (hash : Nat) (st : SymState)
    (hroom : st.m_arena_fill + entry_size s < MAX_ARENA_SIZE) :
    add_name b s hash st = .ok (freshChunk s hash st,
      { st with
          m_arena_fill := st.m_arena_fill + entry_size s
          m_pool := st.m_pool ++ [freshChunk s hash st] }) := by
  unfold add_name
  rw [if_neg (by omega)]
  rfl

theorem add_fresh (b : Bool) (s : List Nat) (st : SymState)
    (hA : is_fully_ascii s = true) (hL : s.length < MAX_LENGTH)
    (hroom : st.m_arena_fill + entry_size s < MAX_ARENA_SIZE)
    (hfresh : ∀ c ∈ st.getBucket (hash_ascii_ci s % HASH_BUCKETS),
        c.m_hash ≠ hash_ascii_ci s) :
    Name.add b s st = .ok
      (Name.ofChunk (freshChunk s (hash_ascii_ci s) st),
       afterInsert s (hash_ascii_ci s) (hash_ascii_ci s % HASH_BUCKETS) st) := by
  unfold Name.add
  rw [if_neg (by simp [hA]), if_neg (by omega)]
  rcases hchain : st.getBucket (hash_ascii_ci s % HASH_BUCKETS) with _ | ⟨c0, rest⟩
  · simp only [hchain, add_name_fits b s _ st hroom]
    unfold afterInsert SymState.setBucket
    simp [hchain]
  · have hdrop : ((c0 :: rest).dropLast).any
        (fun c => c.m_hash == hash_ascii_ci s) = false := by
      rw [List.any_eq_false]
      intro c hc
      have hmem : c ∈ st.getBucket (hash_ascii_ci s % HASH_BUCKETS) := by
        rw [hchain]
        exact List.dropLast_subset _ hc
      simpa using hfresh c hmem
    simp only [hchain, hdrop, if_false, Bool.false_eq_true,
      add_name_fits b s _ st hroom]
    unfold afterInsert SymState.setBucket
    simp [hchain]

theorem lockedInsert_go (b : Bool) (s : List Nat) (hash bucket : Nat)
    (st : SymState)
    (hroom : st.m_arena_fill + entry_size s < MAX_ARENA_SIZE) :
    lockedInsert b s hash bucket st = .ok
      (Name.ofChunk (freshChunk s hash st), afterInsert s hash bucket st) := by
  unfold lockedInsert
  rcases hchain : st.getBucket bucket with _ | ⟨c0, rest⟩
  · simp only [hchain, add_name_fits b s hash st hroom]
    unfold afterInsert SymState.setBucket
    simp [hchain]
  · simp only [hchain, add_name_fits b s hash st hroom]
    unfold afterInsert SymState.setBucket
    simp [hchain]

theorem find_or_add_fresh (b : Bool) (s : List Nat) (st : SymState)
    (hA : is_fully_ascii s = true) (hL : s.length < MAX_LENGTH)
    (hroom : st.m_arena_fill + entry_size s < MAX_ARENA_SIZE)
    (hfresh : ∀ c ∈ st.getBucket (hash_ascii_ci s % HASH_BUCKETS),
        c.m_hash ≠ hash_ascii_ci s) :
    Name.find_or_add b s st = .ok
      (Name.ofChunk (freshChunk s (hash_ascii_ci s) st),
       afterInsert s (hash_ascii_ci s) (hash_ascii_ci s % HASH_BUCKETS) st) := by
  unfold Name.find_or_add
  rw [if_neg (by simp [hA]), if_neg (by omega)]
  have hnone : (st.getBucket (hash_ascii_ci s % HASH_BUCKETS)).find?
      (fun c => c.m_hash == hash_ascii_ci s) = none := by
    rw [List.find?_eq_none]
    intro c hc
    simpa using hfresh c hc
  simp only [hnone]
  exact lockedInsert_go b s _ _ st hroom

theorem ofChunk_freshChunk (s : List Nat) (hash : Nat) (st : SymState)
    (hc2 : st.m_arena_count ≤ MAX_ARENA_COUNT)
    (hf : st.m_arena_fill < MAX_ARENA_SIZE) :
    Name.ofChunk (freshChunk s hash st) =
      ⟨st.m_arena_fill, st.m_arena_count - 1⟩ := by
  unfold MAX_ARENA_COUNT at hc2
  unfold MAX_ARENA_SIZE at hf
  simp only [Name.ofChunk, freshChunk, Name.mk.injEq]
  constructor
  · omega
  · omega

theorem resolve_fresh_pool (s : List Nat) (hash : Nat) (st st2 : SymState)
    (h2 : st2.m_pool = st.m_pool ++ [freshChunk s hash st]) (hWF : WF st) :
    st2.resolve (Name.ofChunk (freshChunk s hash st)) =
      some (freshChunk s hash st) := by
  obtain ⟨hc1, hc2, hf, hpool⟩ := hWF
  have hn := ofChunk_freshChunk s hash st hc2 hf
  have hnone : st.m_pool.find?
      (fun c => c.m_arena_id == st.m_arena_count - 1 &&
                c.m_offset == st.m_arena_fill) = none := by
    rw [List.find?_eq_none]
    intro c hc
    obtain ⟨ha, he, hcur⟩ := hpool c hc
    simp only [Bool.and_eq_true, beq_iff_eq, not_and]
    intro hid
    have hend := hcur hid
    unfold chunkEnd META_SIZE at hend
    omega
  have hpos : (fun c => c.m_arena_id == st.m_arena_count - 1 &&
      c.m_offset == st.m_arena_fill) (freshChunk s hash st) = true := by
    unfold MAX_ARENA_COUNT at hc2
    simp only [freshChunk, Bool.and_eq_true, beq_iff_eq, and_true]
    omega
  have hsingle : List.find?
      (fun c => c.m_arena_id == st.m_arena_count - 1 &&
                c.m_offset == st.m_arena_fill) [freshChunk s hash st] =
      some (freshChunk s hash st) := List.find?_cons_of_pos _ hpos
  unfold SymState.resolve
  rw [h2, hn]
  dsimp only
  rw [List.find?_append, hnone, hsingle, Option.none_or]

theorem afterInsert_pool (s : List Nat) (hash bucket : Nat) (st : SymState) :
    (afterInsert s hash bucket st).m_pool =
      st.m_pool ++ [freshChunk s hash st] := rfl

theorem resolve_afterInsert (s : List Nat) (hash bucket : Nat)
    (st : SymState) (hWF : WF st) :
    (afterInsert s hash bucket st).resolve
        (Name.ofChunk (freshChunk s hash st)) =
      some (freshChunk s hash st) :=
  resolve_fresh_pool s hash st _ (afterInsert_pool s hash bucket st) hWF

theorem accessors_afterInsert (s : List Nat) (hash bucket : Nat)
    (st : SymState) (hWF : WF st) (hL : s.length < MAX_LENGTH) :
    (afterInsert s hash bucket st).strOf
        (Name.ofChunk (freshChunk s hash st)) = some s ∧
    (afterInsert s hash bucket st).dataOf
        (Name.ofChunk (freshChunk s hash st)) = some (s ++ [0]) ∧
    (afterInsert s hash bucket st).lengthOf
        (Name.ofChunk (freshChunk s hash st)) = some s.length := by
  have hres := resolve_afterInsert s hash bucket st hWF
  have hlen : s.length % 2 ^ 9 = s.length := by
    apply Nat.mod_eq_of_lt
    unfold MAX_LENGTH at hL
    omega
  refine ⟨?_, ?_, ?_⟩
  · unfold SymState.strOf
    rw [hres, Option.map_some']
    dsimp only [freshChunk]
    rw [hlen]
    exact congrArg some (List.take_left' rfl)
  · unfold SymState.dataOf
    rw [hres]
    rfl
  · unfold SymState.lengthOf
    rw [hres, Option.map_some']
    dsimp only [freshChunk]
    rw [hlen]

theorem scan_afterInsert (s : List Nat) (st : SymState)
    (hA : is_fully_ascii s = true)
    (hfresh : ∀ c ∈ st.getBucket (hash_ascii_ci s % HASH_BUCKETS),
        c.m_hash ≠ hash_ascii_ci s) :
    ((afterInsert s (hash_ascii_ci s)
        (hash_ascii_ci s % HASH_BUCKETS) st).getBucket
          (hash_ascii_ci s % HASH_BUCKETS)).find?
        (fun c => c.m_hash == hash_ascii_ci s) =
      some (freshChunk s (hash_ascii_ci s) st) := by
  have hb : (afterInsert s (hash_ascii_ci s)
      (hash_ascii_ci s % HASH_BUCKETS) st).getBucket
        (hash_ascii_ci s % HASH_BUCKETS) =
      st.getBucket (hash_ascii_ci s % HASH_BUCKETS) ++
        [freshChunk s (hash_ascii_ci s) st] := by
    unfold afterInsert SymState.getBucket
    exact bucketsGet_bucketsSet_self _ _ _
  have hnone : (st.getBucket (hash_ascii_ci s % HASH_BUCKETS)).find?
      (fun c => c.m_hash == hash_ascii_ci s) = none := by
    rw [List.find?_eq_none]
    intro c hc
    simpa using hfresh c hc
  have hpos : (fun c => c.m_hash == hash_ascii_ci s)
      (freshChunk s (hash_ascii_ci s) st) = true := by
    simp only [freshChunk, beq_iff_eq]
    exact Nat.mod_eq_of_lt (hash_lt s hA)
  have hsingle : List.find? (fun c => c.m_hash == hash_ascii_ci s)
      [freshChunk s (hash_ascii_ci s) st] =
      some (freshChunk s (hash_ascii_ci s) st) :=
    List.find?_cons_of_pos _ hpos
  rw [hb, List.find?_append, hnone, hsingle, Option.none_or]

theorem find_afterInsert (s : List Nat) (st : SymState)
    (hA : is_fully_ascii s = true) (hL : s.length < MAX_LENGTH)
    (hfresh : ∀ c ∈ st.getBucket (hash_ascii_ci s % HASH_BUCKETS),
        c.m_hash ≠ hash_ascii_ci s) :
    Name.find s (afterInsert s (hash_ascii_ci s)
        (hash_ascii_ci s % HASH_BUCKETS) st) =
      .ok (Name.ofChunk (freshChunk s (hash_ascii_ci s) st)) := by
  unfold Name.find
  rw [if_neg (by simp [hA]), if_neg (by omega)]
  simp only [scan_afterInsert s st hA hfresh]

theorem do_allocate_arena_ok_eq (b : Bool) (st st2 : SymState)
    (h : do_allocate_arena b st = .ok st2) :
    st2 = { st with
              m_arena_count := st.m_arena_count + 1
              m_arena_fill := 0 } := by
  unfold do_allocate_arena at h
  split at h
  · simp at h
  · split at h
    · simp at h
    · injection h with h
      exact h.symm

theorem add_name_ok_pool (b : Bool) (s : List Nat) (hash : Nat)
    (st st1 : SymState) (c : NameChunk)
    (h : add_name b s hash st = .ok (c, st1)) :
    st1.m_pool = st.m_pool ++ [c] ∧ st1.m_buckets = st.m_buckets := by
  unfold add_name at h
  cases hpre : (if st.m_arena_fill + entry_size s ≥ MAX_ARENA_SIZE
      then do_allocate_arena b st else .ok st) with
  | error e => rw [hpre] at h; simp at h
  | ok st2 =>
      have hst2 : st2.m_pool = st.m_pool ∧ st2.m_buckets = st.m_buckets := by
        split at hpre
        · rw [do_allocate_arena_ok_eq b st st2 hpre]
          exact ⟨rfl, rfl⟩
        · injection hpre with hpre
          rw [hpre]
          exact ⟨rfl, rfl⟩
      rw [hpre] at h
      simp only [Except.ok.injEq, Prod.mk.injEq] at h
      obtain ⟨hc, hst⟩ := h
      constructor
      · rw [← hst]
        dsimp only
        rw [hst2.1, hc]
      · rw [← hst]
        dsimp only
        exact hst2.2

theorem add_ok_pool (b : Bool) (s : List Nat) (st : SymState) (n : Name)
    (st1 : SymState) (h : Name.add b s st = .ok (n, st1)) :
    ∃ c, st1.m_pool = st.m_pool ++ [c] := by
  unfold Name.add at h
  split at h
  · simp at h
  · split at h
    · simp at h
    · split at h
      · cases ha : add_name b s (hash_ascii_ci s) st with
        | error e => rw [ha] at h; simp at h
        | ok p =>
            obtain ⟨c, st2⟩ := p
            rw [ha] at h
            simp only [Except.ok.injEq, Prod.mk.injEq] at h
            refine ⟨c, ?_⟩
            rw [← h.2]
            exact (add_name_ok_pool b s _ st st2 c ha).1
      · split at h
        · simp at h
        · cases ha : add_name b s (hash_ascii_ci s) st with
          | error e => rw [ha] at h; simp at h
          | ok p =>
              obtain ⟨c, st2⟩ := p
              rw [ha] at h
              simp only [Except.ok.injEq, Prod.mk.injEq] at h
              refine ⟨c, ?_⟩
              rw [← h.2]
              exact (add_name_ok_pool b s _ st st2 c ha).1

theorem lockedInsert_ok_pool (b : Bool) (s : List Nat) (hash bucket : Nat)
    (st : SymState) (n : Name) (st1 : SymState)
    (h : lockedInsert b s hash bucket st = .ok (n, st1)) :
    ∃ c, st1.m_pool = st.m_pool ++ [c] := by
  unfold lockedInsert at h
  split at h
  · cases ha : add_name b s hash st with
    | error e => rw [ha] at h; simp at h
    | ok p =>
        obtain ⟨c, st2⟩ := p
        rw [ha] at h
        simp only [Except.ok.injEq, Prod.mk.injEq] at h
        refine ⟨c, ?_⟩
        rw [← h.2]
        exact (add_name_ok_pool b s hash st st2 c ha).1
  · cases ha : add_name b s hash st with
    | error e => rw [ha] at h; simp at h
    | ok p =>
        obtain ⟨c, st2⟩ := p
        rw [ha] at h
        simp only [Except.ok.injEq, Prod.mk.injEq] at h
        refine ⟨c, ?_⟩
        rw [← h.2]
        exact (add_name_ok_pool b s hash st st2 c ha).1

theorem foa_ok_pool (b : Bool) (s : List Nat) (st : SymState) (n : Name)
    (st1 : SymState) (h : Name.find_or_add b s st = .ok (n, st1)) :
    st1.m_pool = st.m_pool ∨ ∃ c, st1.m_pool = st.m_pool ++ [c] := by
  unfold Name.find_or_add at h
  split at h
  · simp at h
  · split at h
    · simp at h
    · split at h
      · left
        simp only [Except.ok.injEq, Prod.mk.injEq] at h
        rw [← h.2]
      · right
        exact lockedInsert_ok_pool b s _ _ st n st1 h

theorem resolve_mono (st st1 : SymState) (n : Name) (c : NameChunk)
    (hres : st.resolve n = some c) (l : List NameChunk)
    (hpool : st1.m_pool = st.m_pool ++ l) : st1.resolve n = some c := by
  unfold SymState.resolve at hres ⊢
  rw [hpool, List.find?_append, hres, Option.or_some]


theorem to_lower_ascii_of_ge (ch : Nat) (h : 128 ≤ ch) :
    to_lower_ascii ch = ch := by
  have hu : is_upper_alpha_ascii ch = false := by
    unfold is_upper_alpha_ascii
    simp only [Bool.and_eq_false_iff, decide_eq_false_iff_not]
    omega
  unfold to_lower_ascii
  simp [hu]

theorem case_variant_ascii (s : List Nat) :
    ∀ t : List Nat, s.map to_lower_ascii = t.map to_lower_ascii →
      is_fully_ascii s = true → is_fully_ascii t = true := by
  induction s with
  | nil =>
      intro t h _
      cases t with
      | nil => rfl
      | cons y v => simp at h
  | cons x u ih =>
      intro t h hA
      cases t with
      | nil => simp at h
      | cons y v =>
          simp only [List.map_cons, List.cons.injEq] at h
          simp only [is_fully_ascii, List.all_cons, Bool.and_eq_true]
            at hA ⊢
          refine ⟨?_, ?_⟩
          · unfold is_ascii
            simp only [decide_eq_true_eq]
            by_contra hy
            have hy128 : 128 ≤ y := by omega
            have h1 : to_lower_ascii y = y := to_lower_ascii_of_ge y hy128
            have h2 : to_lower_ascii x ≤ 127 := by
              apply to_lower_ascii_le
              have hx := hA.1
              unfold is_ascii at hx
              simpa using hx
            rw [h.1, h1] at h2
            omega
          · have := ih v h.2 (by simpa [is_fully_ascii] using hA.2)
            simpa [is_fully_ascii] using this

theorem hash_foldl_congr (u : List Nat) :
    ∀ (v : List Nat), u.map to_lower_ascii = v.map to_lower_ascii →
      ∀ a : Nat, u.foldl hash_step a = v.foldl hash_step a := by
  induction u with
  | nil =>
      intro v hv a
      cases v with
      | nil => rfl
      | cons y w => simp at hv
  | cons x u2 ih =>
      intro v hv a
      cases v with
      | nil => simp at hv
      | cons y w =>
          simp only [List.map_cons, List.cons.injEq] at hv
          simp only [List.foldl_cons]
          have hstep : hash_step a x = hash_step a y := by
            unfold hash_step
            rw [hv.1]
          rw [hstep]
          exact ih w hv.2 _

theorem hash_congr (s t : List Nat)
    (h : s.map to_lower_ascii = t.map to_lower_ascii) :
    hash_ascii_ci s = hash_ascii_ci t :=
  hash_foldl_congr s t h 5381


/-! Claim theorems. -/

/-- C1: for a pure-ASCII string s of length < 512 whose case-insensitive
hash is not yet interned in its bucket chain (and with room for the record
in the current arena), add(s) succeeds with a handle n such that a
subsequent find(s) returns n, the content read through n (str / data) is
byte-for-byte s with its original case, and length() is the byte length
of s. -/
theorem claim_add_find_roundtrip (b : Bool) (s : List Nat) (st : SymState)
    (hA : is_fully_ascii s = true) (hL : s.length < MAX_LENGTH)
    (hWF : WF st)
    (hroom : st.m_arena_fill + entry_size s < MAX_ARENA_SIZE)
    (hfresh : ∀ c ∈ st.getBucket (hash_ascii_ci s % HASH_BUCKETS),
        c.m_hash ≠ hash_ascii_ci s) :
    ∃ n st1, Name.add b s st = .ok (n, st1) ∧
      Name.find s st1 = .ok n ∧
      st1.strOf n = some s ∧
      st1.dataOf n = some (s ++ [0]) ∧
      st1.lengthOf n = some s.length :=
  ⟨Name.ofChunk (freshChunk s (hash_ascii_ci s) st),
   afterInsert s (hash_ascii_ci s) (hash_ascii_ci s % HASH_BUCKETS) st,
   add_fresh b s st hA hL hroom hfresh,
   find_afterInsert s st hA hL hfresh,
   (accessors_afterInsert s _ _ st hWF hL).1,
   (accessors_afterInsert s _ _ st hWF hL).2.1,
   (accessors_afterInsert s _ _ st hWF hL).2.2⟩

/-- Witness for C1 at s = a from the fresh state. -/
theorem claim_add_find_roundtrip_witness :
    ∃ n st1, Name.add true [97] initState = .ok (n, st1) ∧
      Name.find [97] st1 = .ok n ∧
      st1.strOf n = some [97] ∧
      st1.dataOf n = some [97, 0] ∧
      st1.lengthOf n = some 1 :=
  claim_add_find_roundtrip true [97] initState (by decide) (by decide)
    (by decide) (by decide) (by decide)

/-- C2: a case variant t of s (same letters up to ASCII case) has the same
case-insensitive hash, and find_or_add(s) followed by find_or_add(t) from
a state where that hash is fresh returns the same handle twice, whose
content is the casing of the first inserted string s. -/
theorem claim_case_insensitive (b b2 : Bool) (s t : List Nat)
    (st : SymState)
    (hA : is_fully_ascii s = true) (hL : s.length < MAX_LENGTH)
    (hcv : s.map to_lower_ascii = t.map to_lower_ascii)
    (hWF : WF st)
    (hroom : st.m_arena_fill + entry_size s < MAX_ARENA_SIZE)
    (hfresh : ∀ c ∈ st.getBucket (hash_ascii_ci s % HASH_BUCKETS),
        c.m_hash ≠ hash_ascii_ci s) :
    hash_ascii_ci s = hash_ascii_ci t ∧
    ∃ n st1, Name.find_or_add b s st = .ok (n, st1) ∧
      Name.find_or_add b2 t st1 = .ok (n, st1) ∧
      st1.strOf n = some s := by
  have hhash := hash_congr s t hcv
  have hAt : is_fully_ascii t = true := case_variant_ascii s t hcv hA
  have hLt : t.length < MAX_LENGTH := by
    have hlen := congrArg List.length hcv
    simp only [List.length_map] at hlen
    omega
  refine ⟨hhash,
    Name.ofChunk (freshChunk s (hash_ascii_ci s) st),
    afterInsert s (hash_ascii_ci s) (hash_ascii_ci s % HASH_BUCKETS) st,
    find_or_add_fresh b s st hA hL hroom hfresh, ?_,
    (accessors_afterInsert s _ _ st hWF hL).1⟩
  unfold Name.find_or_add
  rw [if_neg (by simp [hAt]), if_neg (by omega), ← hhash]
  simp only [scan_afterInsert s st hA hfresh]

/-- Witness for C2 at s = a, t = A from the fresh state. -/
theorem claim_case_insensitive_witness :
    hash_ascii_ci [97] = hash_ascii_ci [65] ∧
    ∃ n st1, Name.find_or_add true [97] initState = .ok (n, st1) ∧
      Name.find_or_add true [65] st1 = .ok (n, st1) ∧
      st1.strOf n = some [97] :=
  claim_case_insensitive true true [97] [65] initState (by decide)
    (by decide) (by decide) (by decide) (by decide) (by decide)

/-- C3 (code bug evidence): adding the same one-byte string a twice from
the fresh state: the second add does not fail with DuplicateName - the
duplicate scan of Name::add stops at the chain's last node without
comparing its hash - and instead appends a second chunk. -/
theorem claim_add_twice_no_duplicate_error :
    Name.add true [97] initState = .ok (⟨0, 0⟩, st97a) ∧
    Name.add true [97] st97a = .ok (⟨18, 0⟩, st97b) ∧
    st97b.m_pool.length = 2 := by
  decide

/-- C4 (code bug evidence): the locked insertion path of find_or_add,
started in a state whose bucket chain already holds the query hash, does
not return the existing chunk's handle: it walks to the tail comparing
nothing and appends a second chunk with the same hash, breaking the
at-most-one-chunk-per-hash invariant. -/
theorem claim_locked_insert_duplicates :
    (st97a.getBucket (hash_ascii_ci [97] % HASH_BUCKETS)).countP
        (fun c => c.m_hash == hash_ascii_ci [97]) = 1 ∧
    lockedInsert true [97] (hash_ascii_ci [97])
        (hash_ascii_ci [97] % HASH_BUCKETS) st97a = .ok (⟨18, 0⟩, st97b) ∧
    (st97b.getBucket (hash_ascii_ci [97] % HASH_BUCKETS)).countP
        (fun c => c.m_hash == hash_ascii_ci [97]) = 2 ∧
    Name.beq ⟨18, 0⟩ (Name.ofChunk ch97a) = false := by
  decide

/-- C5: for a valid input, find walks the bucket chain of the query hash
in insertion order and returns the handle of the first chunk whose stored
hash equals it, deciding by hash alone (any equal-hash input gives the
same result, regardless of content), and fails with NameNotFound when no
chunk in the chain carries the hash; find is embedded as a read-only
function, so the pool and index are untouched by construction. -/
theorem claim_find_hash_only (s : List Nat) (st : SymState)
    (hA : is_fully_ascii s = true) (hL : s.length < MAX_LENGTH) :
    (∀ pre c post,
        st.getBucket (hash_ascii_ci s % HASH_BUCKETS) = pre ++ c :: post →
        (∀ x ∈ pre, x.m_hash ≠ hash_ascii_ci s) →
        c.m_hash = hash_ascii_ci s →
        Name.find s st = .ok (Name.ofChunk c)) ∧
    ((∀ x ∈ st.getBucket (hash_ascii_ci s % HASH_BUCKETS),
        x.m_hash ≠ hash_ascii_ci s) →
        Name.find s st = .error .NameNotFound) ∧
    (∀ t, is_fully_ascii t = true → t.length < MAX_LENGTH →
        hash_ascii_ci t = hash_ascii_ci s →
        Name.find t st = Name.find s st) := by
  refine ⟨?_, ?_, ?_⟩
  · intro pre c post hchain hpre hc
    unfold Name.find
    rw [if_neg (by simp [hA]), if_neg (by omega)]
    have hprenone : pre.find? (fun x => x.m_hash == hash_ascii_ci s)
        = none := by
      rw [List.find?_eq_none]
      intro x hx
      simpa using hpre x hx
    have hcpos : (fun x => x.m_hash == hash_ascii_ci s) c = true := by
      simpa using hc
    have hx : (pre ++ c :: post).find?
        (fun x => x.m_hash == hash_ascii_ci s) = some c := by
      rw [List.find?_append, hprenone, Option.none_or]
      exact List.find?_cons_of_pos _ hcpos
    simp only [hchain, hx]
  · intro hnone
    unfold Name.find
    rw [if_neg (by simp [hA]), if_neg (by omega)]
    have hx : (st.getBucket (hash_ascii_ci s % HASH_BUCKETS)).find?
        (fun x => x.m_hash == hash_ascii_ci s) = none := by
      rw [List.find?_eq_none]
      intro x hx
      simpa using hnone x hx
    simp only [hx]
  · intro t hAt hLt hht
    unfold Name.find
    rw [if_neg (by simp [hAt]), if_neg (by omega),
        if_neg (by simp [hA]), if_neg (by omega), hht]

/-- Witness for C5: find of a on the one-entry state returns the stored
chunk's handle. -/
theorem claim_find_hash_only_witness :
    Name.find [97] st97a = .ok (Name.ofChunk ch97a) :=
  (claim_find_hash_only [97] st97a (by decide) (by decide)).1 [] ch97a []
    (by decide) (by decide) (by decide)

/-- C6: an input with a non-ASCII byte or of length at least 512 makes
add, find and find_or_add all fail with InvalidInput; each validation
failure is embedded as returning only the error, before any state is
produced or touched. -/
theorem claim_invalid_input (b : Bool) (s : List Nat) (st : SymState)
    (hbad : is_fully_ascii s = false ∨ MAX_LENGTH ≤ s.length) :
    Name.add b s st = .error .InvalidInput ∧
    Name.find s st = .error .InvalidInput ∧
    Name.find_or_add b s st = .error .InvalidInput := by
  refine ⟨?_, ?_, ?_⟩
  · unfold Name.add
    rcases hbad with hb1 | hb2
    · rw [if_pos hb1]
    · cases hbool : is_fully_ascii s with
      | false => rw [if_pos rfl]
      | true => rw [if_neg (by simp), if_pos hb2]
  · unfold Name.find
    rcases hbad with hb1 | hb2
    · rw [if_pos hb1]
    · cases hbool : is_fully_ascii s with
      | false => rw [if_pos rfl]
      | true => rw [if_neg (by simp), if_pos hb2]
  · unfold Name.find_or_add
    rcases hbad with hb1 | hb2
    · rw [if_pos hb1]
    · cases hbool : is_fully_ascii s with
      | false => rw [if_pos rfl]
      | true => rw [if_neg (by simp), if_pos hb2]

/-- Witness for C6 at the non-ASCII single byte 200. -/
theorem claim_invalid_input_witness :
    Name.add true [200] initState = .error .InvalidInput ∧
    Name.find [200] initState = .error .InvalidInput ∧
    Name.find_or_add true [200] initState = .error .InvalidInput :=
  claim_invalid_input true [200] initState (Or.inl (by decide))


/-- C7 counterexample: in a state whose current arena has exactly
entry_size bytes of space left - sufficient for the record - add_name
still opens a new arena, so the claim that a new arena is opened exactly
when the remaining space is insufficient fails on the boundary. -/
theorem claim_reserve_boundary_counterexample :
    MAX_ARENA_SIZE - stBoundary.m_arena_fill = entry_size [97] ∧
    (∃ c st1, add_name true [97] 0 stBoundary = .ok (c, st1) ∧
      st1.m_arena_count = stBoundary.m_arena_count + 1) := by
  refine ⟨by decide, ⟨0, 1, 1, 0, [97, 0], 0⟩,
    ⟨2, 18, [⟨0, 1, 1, 0, [97, 0], 0⟩], []⟩, by decide, by decide⟩

/-- C7 amended: add_name opens a new arena exactly when
fill + record size >= arena capacity, i.e. when the remaining space is
insufficient or an exact fit; otherwise the record is placed at the
current fill offset and the cursor advances by the record size.  Every
successful placement lies wholly inside one arena, handles of previously
resident chunks still resolve to the same chunks, and when a new arena
was opened the new chunk's handle differs from every resident chunk's
handle. -/
theorem claim_reserve_amended (b : Bool) (s : List Nat) (hash : Nat)
    (st : SymState) (hWF : WF st) (hL : s.length < MAX_LENGTH) :
    (st.m_arena_fill + entry_size s < MAX_ARENA_SIZE →
      add_name b s hash st = .ok (freshChunk s hash st,
        { st with
            m_arena_fill := st.m_arena_fill + entry_size s
            m_pool := st.m_pool ++ [freshChunk s hash st] })) ∧
    (MAX_ARENA_SIZE ≤ st.m_arena_fill + entry_size s →
      st.m_arena_count < MAX_ARENA_COUNT → b = true →
      add_name b s hash st = .ok
        (⟨hash % 2 ^ 32, s.length % 2 ^ 9, st.m_arena_count % 2 ^ 16, 0,
          s ++ [0], 0⟩,
         ⟨st.m_arena_count + 1, entry_size s,
          st.m_pool ++ [⟨hash % 2 ^ 32, s.length % 2 ^ 9,
            st.m_arena_count % 2 ^ 16, 0, s ++ [0], 0⟩],
          st.m_buckets⟩)) ∧
    (∀ c st1, add_name b s hash st = .ok (c, st1) →
      c.m_offset + entry_size s ≤ MAX_ARENA_SIZE ∧
      (∀ n c0, st.resolve n = some c0 → st1.resolve n = some c0)) ∧
    (MAX_ARENA_SIZE ≤ st.m_arena_fill + entry_size s →
      ∀ c st1, add_name b s hash st = .ok (c, st1) →
      ∀ c0 ∈ st.m_pool,
        Name.beq (Name.ofChunk c) (Name.ofChunk c0) = false) := by
  obtain ⟨hc1, hc2, hf, hpool⟩ := hWF
  refine ⟨?_, ?_, ?_, ?_⟩
  · intro hroom
    exact add_name_fits b s hash st hroom
  · intro hge hcount hb
    subst hb
    unfold add_name
    rw [if_pos (by omega)]
    unfold do_allocate_arena
    rw [if_neg (by omega), if_neg (by simp)]
    dsimp only
    simp only [Nat.add_sub_cancel, Nat.zero_add]
  · intro c st1 h
    constructor
    · unfold add_name at h
      cases hpre : (if st.m_arena_fill + entry_size s ≥ MAX_ARENA_SIZE
          then do_allocate_arena b st else .ok st) with
      | error e => rw [hpre] at h; simp at h
      | ok st2 =>
          rw [hpre] at h
          simp only [Except.ok.injEq, Prod.mk.injEq] at h
          have hoff : c.m_offset = st2.m_arena_fill := by
            rw [← h.1]
          rw [hoff]
          split at hpre
          · rw [do_allocate_arena_ok_eq b st st2 hpre]
            unfold entry_size META_SIZE MAX_ARENA_SIZE
            unfold MAX_LENGTH at hL
            simp
            omega
          · injection hpre with hpre
            rw [← hpre]
            omega
    · intro n c0 hres
      have hp := (add_name_ok_pool b s hash st st1 c h).1
      exact resolve_mono st st1 n c0 hres [c] hp
  · intro hge c st1 h c0 hc0
    obtain ⟨ha0, he0, hcur0⟩ := hpool c0 hc0
    unfold add_name at h
    rw [if_pos (by omega)] at h
    cases halloc : do_allocate_arena b st with
    | error e => rw [halloc] at h; simp at h
    | ok st2 =>
        rw [halloc] at h
        simp only [Except.ok.injEq, Prod.mk.injEq] at h
        have hst2 := do_allocate_arena_ok_eq b st st2 halloc
        have hcount : st.m_arena_count + 1 ≤ MAX_ARENA_COUNT := by
          unfold do_allocate_arena at halloc
          split at halloc
          · simp at halloc
          · omega
        have hcval : c = ⟨hash % 2 ^ 32, s.length % 2 ^ 9,
            st.m_arena_count % 2 ^ 16, 0, s ++ [0], 0⟩ := by
          rw [← h.1, hst2]
          dsimp only
          simp only [Nat.add_sub_cancel]
        rw [hcval]
        unfold Name.beq Name.encode Name.ofChunk
        dsimp only
        simp only [beq_eq_false_iff_ne, ne_eq]
        unfold MAX_ARENA_COUNT at hc2 hcount
        unfold chunkEnd META_SIZE MAX_ARENA_SIZE at he0
        omega

/-- Witness for C7 at the in-arena placement case from the fresh state. -/
theorem claim_reserve_amended_witness :
    add_name true [97] 5 initState = .ok (freshChunk [97] 5 initState,
      { initState with
          m_arena_fill := initState.m_arena_fill + entry_size [97]
          m_pool := initState.m_pool ++ [freshChunk [97] 5 initState] }) :=
  (claim_reserve_amended true [97] 5 initState (by decide) (by decide)).1
    (by decide)

/-- C8: do_allocate_arena fails exactly when 32 arenas already exist
(ArenaExhausted) or the block source supplies no block
(AllocationFailure); a failure returns only the error, retaining no
leftover state; success appends one zeroed arena - the arena counter is
incremented, the fill cursor resets to 0, pool and index untouched - and
the arena count can never exceed the maximum. -/
theorem claim_open_arena (b : Bool) (st : SymState) :
    (MAX_ARENA_COUNT ≤ st.m_arena_count →
        do_allocate_arena b st = .error .ArenaExhausted) ∧
    (st.m_arena_count < MAX_ARENA_COUNT → b = false →
        do_allocate_arena b st = .error .AllocationFailure) ∧
    (st.m_arena_count < MAX_ARENA_COUNT → b = true →
        do_allocate_arena b st = .ok
          { st with
              m_arena_count := st.m_arena_count + 1
              m_arena_fill := 0 }) ∧
    (∀ st1, do_allocate_arena b st = .ok st1 →
        st1.m_pool = st.m_pool ∧ st1.m_buckets = st.m_buckets ∧
        st1.m_arena_fill = 0 ∧
        st1.m_arena_count ≤ MAX_ARENA_COUNT) := by
  refine ⟨?_, ?_, ?_, ?_⟩
  · intro hge
    unfold do_allocate_arena
    rw [if_pos (by omega)]
  · intro hlt hb
    subst hb
    unfold do_allocate_arena
    rw [if_neg (by omega), if_pos rfl]
  · intro hlt hb
    subst hb
    unfold do_allocate_arena
    rw [if_neg (by omega), if_neg (by simp)]
  · intro st1 h
    unfold do_allocate_arena at h
    split at h
    · simp at h
    · split at h
      · simp at h
      · rename_i hcond _
        injection h with h
        rw [← h]
        refine ⟨rfl, rfl, rfl, ?_⟩
        show st.m_arena_count + 1 ≤ MAX_ARENA_COUNT
        unfold MAX_ARENA_COUNT at hcond ⊢
        omega

/-- Witness for C8: opening the second arena from the fresh state. -/
theorem claim_open_arena_witness :
    do_allocate_arena true initState = .ok
      { initState with
          m_arena_count := initState.m_arena_count + 1
          m_arena_fill := 0 } :=
  (claim_open_arena true initState).2.2.1 (by decide) rfl

/-- C9: a handle that resolves to a chunk keeps resolving to that same
chunk - same hash, length, flags, arena id and content bytes - after any
later successful add or find_or_add: insertions only append to the pool
and never rewrite a resident chunk record. -/
theorem claim_handle_stability (b : Bool) (s : List Nat) (st st1 : SymState)
    (n n1 : Name) (c : NameChunk) (hres : st.resolve n = some c)
    (hop : Name.add b s st = .ok (n1, st1) ∨
           Name.find_or_add b s st = .ok (n1, st1)) :
    st1.resolve n = some c ∧
    st1.strOf n = st.strOf n ∧
    st1.dataOf n = st.dataOf n ∧
    st1.lengthOf n = st.lengthOf n ∧
    st1.hashOf n = st.hashOf n ∧
    st1.flagsOf n = st.flagsOf n ∧
    st1.arenaOf n = st.arenaOf n := by
  have hr1 : st1.resolve n = some c := by
    rcases hop with h | h
    · obtain ⟨c1, hp⟩ := add_ok_pool b s st n1 st1 h
      exact resolve_mono st st1 n c hres [c1] hp
    · rcases foa_ok_pool b s st n1 st1 h with hp | ⟨c1, hp⟩
      · exact resolve_mono st st1 n c hres []
          (by rw [hp, List.append_nil])
      · exact resolve_mono st st1 n c hres [c1] hp
  refine ⟨hr1, ?_, ?_, ?_, ?_, ?_, ?_⟩
  · unfold SymState.strOf
    rw [hr1, hres]
  · unfold SymState.dataOf
    rw [hr1, hres]
  · unfold SymState.lengthOf
    rw [hr1, hres]
  · unfold SymState.hashOf
    rw [hr1, hres]
  · unfold SymState.flagsOf
    rw [hr1, hres]
  · unfold SymState.arenaOf
    rw [hr1, hres]

/-- Witness for C9: the handle of a still resolves to its chunk after b
is added. -/
theorem claim_handle_stability_witness :
    st98.resolve ⟨0, 0⟩ = some ch97a ∧
    st98.strOf ⟨0, 0⟩ = st97a.strOf ⟨0, 0⟩ ∧
    st98.dataOf ⟨0, 0⟩ = st97a.dataOf ⟨0, 0⟩ ∧
    st98.lengthOf ⟨0, 0⟩ = st97a.lengthOf ⟨0, 0⟩ ∧
    st98.hashOf ⟨0, 0⟩ = st97a.hashOf ⟨0, 0⟩ ∧
    st98.flagsOf ⟨0, 0⟩ = st97a.flagsOf ⟨0, 0⟩ ∧
    st98.arenaOf ⟨0, 0⟩ = st97a.arenaOf ⟨0, 0⟩ :=
  claim_handle_stability true [98] st97a st98 ⟨0, 0⟩ ⟨18, 0⟩ ch97a
    (by decide) (Or.inl (by decide))

/-- C10: the all-zero Name (offset field 0, arena-index field 0) compares
equal under operator== to the handle returned for the first string
interned from the fresh state - by add or by find_or_add - because the
first insertion places its chunk at byte offset 0 of arena 0. -/
theorem claim_zero_name_equals_first (b : Bool) (s : List Nat)
    (hA : is_fully_ascii s = true) (hL : s.length < MAX_LENGTH) :
    (∃ n st1, Name.add b s initState = .ok (n, st1) ∧
        Name.beq ⟨0, 0⟩ n = true) ∧
    (∃ n st1, Name.find_or_add b s initState = .ok (n, st1) ∧
        Name.beq ⟨0, 0⟩ n = true) := by
  have hroom2 : initState.m_arena_fill + entry_size s < MAX_ARENA_SIZE := by
    unfold initState entry_size META_SIZE MAX_ARENA_SIZE
    unfold MAX_LENGTH at hL
    simp
    omega
  have hfresh : ∀ c ∈ initState.getBucket (hash_ascii_ci s % HASH_BUCKETS),
      c.m_hash ≠ hash_ascii_ci s := by
    intro c hc
    have hre : initState.getBucket (hash_ascii_ci s % HASH_BUCKETS)
        = [] := rfl
    rw [hre] at hc
    exact absurd hc (List.not_mem_nil c)
  have hofc : Name.ofChunk (freshChunk s (hash_ascii_ci s) initState)
      = ⟨0, 0⟩ := by
    rw [ofChunk_freshChunk s (hash_ascii_ci s) initState (by decide)
      (by decide)]
    rfl
  refine ⟨⟨⟨0, 0⟩, afterInsert s (hash_ascii_ci s)
      (hash_ascii_ci s % HASH_BUCKETS) initState, ?_, by decide⟩,
    ⟨⟨0, 0⟩, afterInsert s (hash_ascii_ci s)
      (hash_ascii_ci s % HASH_BUCKETS) initState, ?_, by decide⟩⟩
  · rw [add_fresh b s initState hA hL hroom2 hfresh, hofc]
  · rw [find_or_add_fresh b s initState hA hL hroom2 hfresh, hofc]

/-- Witness for C10 at s = a. -/
theorem claim_zero_name_equals_first_witness :
    (∃ n st1, Name.add true [97] initState = .ok (n, st1) ∧
        Name.beq ⟨0, 0⟩ n = true) ∧
    (∃ n st1, Name.find_or_add true [97] initState = .ok (n, st1) ∧
        Name.beq ⟨0, 0⟩ n = true) :=
  claim_zero_name_equals_first true [97] (by decide) (by decide)

end Symbolic
